import Mathlib

/-!
# Verification of the GoCommit response-cache subsystem

A shallow embedding of the cache subsystem of the GoCommit CLI:
the diff hasher (`internal/cache`, `DiffHasher`), the cache manager
(`CacheManager` with `Get`/`Set`/`Clear`/`Cleanup`/`GetStats`), its eviction
policy, and the persisted-statistics model, together with proofs and
refutations of the specification's claims about them.

Modelling conventions:
* Go machine integers (`int`, `int64`) are modelled as `Int`; `float64`
  (`Cost`, `HitRate`, ...) as `ℚ`; 32-bit words inside SHA-256 as `Nat`
  reduced with explicit `% 2^32`.
* `crypto/sha256` is modelled by a full executable SHA-256 over `Nat`
  (validated below against the FIPS 180 test vector for "abc").
* The ambient clock `time.Now()` is passed to each operation as an explicit
  RFC3339 string `now`; `time.Parse(time.RFC3339, _)` is modelled by an
  executable parser for the `YYYY-MM-DDTHH:MM:SS(Z|±HH:MM)` forms, mapping a
  timestamp to seconds on an absolute integer time line (chronological order
  and differences agree with Go's `Time.Before`/`After`/`Sub`).
* The file system holds at most the single cache file; it is modelled as
  `Option CacheDocument` (the parsed content of the file, `saveCache` writes
  it whole).  I/O failure modes other than "file does not exist"
  (permissions, full disk) are outside the model.
* Go maps are modelled as association lists keyed by the cache key; `delete`
  and indexed insertion preserve the other bindings.
-/

namespace GoCommit

/-! ## SHA-256 over `Nat` (model of Go's `crypto/sha256.Sum256`) -/

/-- Reduce to a 32-bit word. -/
def u32 (n : Nat) : Nat := n % 4294967296

/-- Rotate the word `n` right by `k` bit positions. -/
def rotr (k n : Nat) : Nat := u32 ((n >>> k) ||| (n <<< (32 - k)))

def bigSigma0 (x : Nat) : Nat := rotr 2 x ^^^ rotr 13 x ^^^ rotr 22 x

def bigSigma1 (x : Nat) : Nat := rotr 6 x ^^^ rotr 11 x ^^^ rotr 25 x

def smallSigma0 (x : Nat) : Nat := rotr 7 x ^^^ rotr 18 x ^^^ (x >>> 3)

def smallSigma1 (x : Nat) : Nat := rotr 17 x ^^^ rotr 19 x ^^^ (x >>> 10)

/-- `Ch(x,y,z)`; `x ^^^ 0xFFFFFFFF` is 32-bit complement for `x < 2^32`. -/
def chF (x y z : Nat) : Nat := (x &&& y) ^^^ ((x ^^^ 4294967295) &&& z)

def majF (x y z : Nat) : Nat := (x &&& y) ^^^ (x &&& z) ^^^ (y &&& z)

/-- The sixty-four round constants of SHA-256 (FIPS 180-4, written in
decimal). -/
def sha256K : List Nat :=
  [1116352408, 1899447441, 3049323471, 3921009573, 961987163,
   1508970993, 2453635748, 2870763221, 3624381080, 310598401,
   607225278, 1426881987, 1925078388, 2162078206, 2614888103,
   3248222580, 3835390401, 4022224774, 264347078, 604807628,
   770255983, 1249150122, 1555081692, 1996064986, 2554220882,
   2821834349, 2952996808, 3210313671, 3336571891, 3584528711,
   113926993, 338241895, 666307205, 773529912, 1294757372,
   1396182291, 1695183700, 1986661051, 2177026350, 2456956037,
   2730485921, 2820302411, 3259730800, 3345764771, 3516065817,
   3600352804, 4094571909, 275423344, 430227734, 506948616,
   659060556, 883997877, 958139571, 1322822218, 1537002063,
   1747873779, 1955562222, 2024104815, 2227730452, 2361852424,
   2428436474, 2756734187, 3204031479, 3329325298]

/-- The eight 32-bit words of a SHA-256 chaining state. -/
structure Sha8 where
  a : Nat
  b : Nat
  c : Nat
  d : Nat
  e : Nat
  f : Nat
  g : Nat
  h : Nat
deriving DecidableEq

/-- The initial SHA-256 chaining state (FIPS 180-4, written in decimal). -/
def sha256H0 : Sha8 :=
  ⟨1779033703, 3144134277, 1013904242, 2773480762,
   1359893119, 2600822924, 528734635, 1541459225⟩

/-- One SHA-256 compression round with round constant `k` and schedule word `w`. -/
def sha256Round (st : Sha8) (k w : Nat) : Sha8 :=
  let t1 := u32 (st.h + bigSigma1 st.e + chF st.e st.f st.g + k + w)
  let t2 := u32 (bigSigma0 st.a + majF st.a st.b st.c)
  ⟨u32 (t1 + t2), st.a, st.b, st.c, u32 (st.d + t1), st.e, st.f, st.g⟩

def sha256Rounds (st : Sha8) : List (Nat × Nat) → Sha8
  | [] => st
  | (k, w) :: rest => sha256Rounds (sha256Round st k w) rest

/-- Extend the 16-word message schedule by `fuel` further words (to 64). -/
def extendSchedule : Nat → List Nat → List Nat
  | 0, acc => acc
  | n + 1, acc =>
    let i := acc.length
    let w := u32 (smallSigma1 (acc.getD (i - 2) 0) + acc.getD (i - 7) 0 +
                  smallSigma0 (acc.getD (i - 15) 0) + acc.getD (i - 16) 0)
    extendSchedule n (acc ++ [w])

/-- Big-endian packing of bytes into 32-bit words, four at a time. -/
def wordsOfBytes : List Nat → List Nat
  | b0 :: b1 :: b2 :: b3 :: rest =>
    ((b0 <<< 24) ||| (b1 <<< 16) ||| (b2 <<< 8) ||| b3) :: wordsOfBytes rest
  | _ => []

/-- Process one 64-byte block. -/
def sha256Block (hs : Sha8) (block : List Nat) : Sha8 :=
  let ws := extendSchedule 48 (wordsOfBytes block)
  let st := sha256Rounds hs (sha256K.zip ws)
  ⟨u32 (hs.a + st.a), u32 (hs.b + st.b), u32 (hs.c + st.c), u32 (hs.d + st.d),
   u32 (hs.e + st.e), u32 (hs.f + st.f), u32 (hs.g + st.g), u32 (hs.h + st.h)⟩

/-- Split a padded message into 64-byte blocks (`fuel` bounds the recursion). -/
def chunk64 : Nat → List Nat → List (List Nat)
  | 0, _ => []
  | _, [] => []
  | fuel + 1, bs => bs.take 64 :: chunk64 fuel (bs.drop 64)

/-- The 8-byte big-endian encoding of the 64-bit message bit length. -/
def lenBytes64 (n : Nat) : List Nat :=
  [(n >>> 56) % 256, (n >>> 48) % 256, (n >>> 40) % 256, (n >>> 32) % 256,
   (n >>> 24) % 256, (n >>> 16) % 256, (n >>> 8) % 256, n % 256]

/-- SHA-256 padding for a message of `len` bytes. -/
def sha256Pad (len : Nat) : List Nat :=
  0x80 :: List.replicate ((119 - len % 64) % 64) 0 ++ lenBytes64 (8 * len)

/-- The SHA-256 digest state of a byte sequence. -/
def sha256Bytes (msg : List Nat) : Sha8 :=
  let padded := msg ++ sha256Pad msg.length
  (chunk64 padded.length padded).foldl sha256Block sha256H0

/-- Lower-case hex digit. -/
def hexDigit (n : Nat) : Char :=
  if n < 10 then Char.ofNat (48 + n) else Char.ofNat (87 + n)

/-- The eight hex characters of a 32-bit word, most significant nibble first. -/
def wordHexChars (w : Nat) : List Char :=
  [hexDigit ((w >>> 28) % 16), hexDigit ((w >>> 24) % 16),
   hexDigit ((w >>> 20) % 16), hexDigit ((w >>> 16) % 16),
   hexDigit ((w >>> 12) % 16), hexDigit ((w >>> 8) % 16),
   hexDigit ((w >>> 4) % 16), hexDigit (w % 16)]

/-- UTF-8 encoding of one character (Go strings are UTF-8 byte sequences). -/
def utf8Char (c : Char) : List Nat :=
  let n := c.toNat
  if n < 0x80 then [n]
  else if n < 0x800 then [0xC0 ||| (n >>> 6), 0x80 ||| (n &&& 0x3F)]
  else if n < 0x10000 then
    [0xE0 ||| (n >>> 12), 0x80 ||| ((n >>> 6) &&& 0x3F), 0x80 ||| (n &&& 0x3F)]
  else
    [0xF0 ||| (n >>> 18), 0x80 ||| ((n >>> 12) &&& 0x3F),
     0x80 ||| ((n >>> 6) &&& 0x3F), 0x80 ||| (n &&& 0x3F)]

/-- The UTF-8 bytes of a string. -/
def utf8Bytes (s : String) : List Nat := s.data.flatMap utf8Char

/-- `hex.EncodeToString(sha256.Sum256([]byte(s))[:])`: the 64-character
lower-case hex digest of a string. -/
def sha256Hex (s : String) : String :=
  let d := sha256Bytes (utf8Bytes s)
  String.mk (([d.a, d.b, d.c, d.d, d.e, d.f, d.g, d.h]).flatMap wordHexChars)

/-! ## Go string helpers

`strings.TrimSpace` trims Unicode white space from both ends; the model
covers the ASCII white-space characters plus U+0085 and U+00A0 (the higher
`Zs` code points never occur in the data the cache handles). -/

/-- `unicode.IsSpace` on the characters relevant here. -/
def goIsSpace (c : Char) : Bool :=
  c = ' ' || c = '\t' || c = '\n' || (9 ≤ c.toNat && c.toNat ≤ 13) ||
  c.toNat = 0x85 || c.toNat = 0xA0

/-- `strings.TrimSpace`. -/
def trimSpace (s : String) : String :=
  String.mk (((s.data.dropWhile goIsSpace).reverse.dropWhile goIsSpace).reverse)

/-- `strings.HasPrefix`. -/
def hasPrefixGo (s pre : String) : Bool := pre.data.isPrefixOf s.data

/-- `strings.Split(_, "\n")` on the character list. -/
def splitNlChars : List Char → List (List Char)
  | [] => [[]]
  | c :: rest =>
    let r := splitNlChars rest
    if c = '\n' then [] :: r
    else
      match r with
      | [] => [[c]]
      | g :: gs => (c :: g) :: gs

/-- `strings.Split(s, "\n")`. -/
def splitNl (s : String) : List String := (splitNlChars s.data).map String.mk

/-- Byte-wise (= code-point-wise) `≤` on strings, the order `sort.Strings`
sorts by. -/
def strListLeB : List Char → List Char → Bool
  | [], _ => true
  | _ :: _, [] => false
  | a :: as, b :: bs =>
    if a.toNat < b.toNat then true
    else if b.toNat < a.toNat then false
    else strListLeB as bs

def strLeB (a b : String) : Bool := strListLeB a.data b.data

def insertSortedLine (x : String) : List String → List String
  | [] => [x]
  | y :: ys => if strLeB x y then x :: y :: ys else y :: insertSortedLine x ys

/-- `sort.Strings`: ascending lexicographic sort.  (Insertion sort; the sorted
permutation of a list of strings is unique, so the algorithm choice is
immaterial.) -/
def sortStrings : List String → List String
  | [] => []
  | x :: xs => insertSortedLine x (sortStrings xs)

/-! ## The Hasher (`internal/cache` `DiffHasher`)

The Go receiver `*DiffHasher` is an empty struct, so its methods are
modelled as plain functions. -/

/-- `types.GenerationOptions`. -/
structure GenerationOptions where
  styleInstruction : String
  attempt : Int
deriving DecidableEq

/-- `types.LLMProvider` is a string type; `String()` returns it unchanged. -/
abbrev LLMProvider := String

def ProviderOpenAI : LLMProvider := "OpenAI"
def ProviderClaude : LLMProvider := "Claude"
def ProviderGemini : LLMProvider := "Gemini"
def ProviderGrok : LLMProvider := "Grok"
def ProviderGroq : LLMProvider := "Groq"
def ProviderOllama : LLMProvider := "Ollama"

/-- `DiffHasher.shouldSkipLine`. -/
def shouldSkipLine (line : String) : Bool :=
  if trimSpace line = "" then true
  else if hasPrefixGo line "diff --git" || hasPrefixGo line "index " ||
          hasPrefixGo line "+++" || hasPrefixGo line "---" ||
          hasPrefixGo line "@@" then true
  else if line.data.contains '/' &&
          (hasPrefixGo line "+" || hasPrefixGo line "-") then true
  else false

/-- `DiffHasher.normalizeLine`. -/
def normalizeLine (line : String) : String :=
  let line := trimSpace line
  if hasPrefixGo line "+" || hasPrefixGo line "-" then
    let pfx := String.mk (line.data.take 1)
    let content := String.mk (line.data.drop 1)
    pfx ++ trimSpace content
  else line

/-- `DiffHasher.normalizeDiff`. -/
def normalizeDiff (diff : String) : String :=
  let lines := splitNl diff
  let normalizedLines := lines.filterMap fun line =>
    if shouldSkipLine line then none
    else
      let n := normalizeLine line
      if n = "" then none else some n
  String.intercalate "\n" (sortStrings normalizedLines)

/-- `DiffHasher.buildHashInput`. -/
def buildHashInput (normalizedDiff : String) (opts : Option GenerationOptions) :
    String :=
  let parts : List String := [normalizedDiff]
  let parts :=
    match opts with
    | some o =>
      if o.styleInstruction ≠ "" then
        parts ++ ["style:" ++ trimSpace o.styleInstruction]
      else parts
    | none => parts
  let parts :=
    match opts with
    | none => parts ++ ["attempt:1"]
    | some o => if o.attempt ≤ 1 then parts ++ ["attempt:1"] else parts
  String.intercalate "|" parts

/-- `DiffHasher.GenerateHash`. -/
def GenerateHash (diff : String) (opts : Option GenerationOptions) : String :=
  sha256Hex (buildHashInput (normalizeDiff diff) opts)

/-- `DiffHasher.GenerateCacheKey`: `fmt.Sprintf("%s:%s", provider.String(),
diffHash)`. -/
def GenerateCacheKey (provider : LLMProvider) (diff : String)
    (opts : Option GenerationOptions) : String :=
  provider ++ ":" ++ GenerateHash diff opts

/-! ## Time (`time.Parse(time.RFC3339, _)` and the absolute time line)

A parsed timestamp is a count of seconds on an absolute integer time line
(days counted by the standard civil-calendar formula), so that Go's
`Time.Before` / `Time.After` / `Time.Sub` correspond to `<` / `>` / `-`
on `Int`.  The parser accepts `YYYY-MM-DDTHH:MM:SS` followed by `Z` or a
`±HH:MM` numeric zone offset, the forms `time.Time.Format(time.RFC3339)`
emits (fractional seconds are not emitted by `Format` and are not
modelled). -/

/-- Decimal digit value of a character. -/
def digitVal (c : Char) : Option Nat :=
  if 48 ≤ c.toNat ∧ c.toNat ≤ 57 then some (c.toNat - 48) else none

def num2 (a b : Char) : Option Nat := do
  let x ← digitVal a
  let y ← digitVal b
  pure (10 * x + y)

def num4 (a b c d : Char) : Option Nat := do
  let x ← num2 a b
  let y ← num2 c d
  pure (100 * x + y)

/-- Day number of a civil date (days since 0000-03-01, Gregorian). -/
def daysFromCivil (y m d : Nat) : Nat :=
  let y := if m ≤ 2 then y - 1 else y
  let era := y / 400
  let yoe := y - era * 400
  let mp := (m + 9) % 12
  let doy := (153 * mp + 2) / 5 + (d - 1)
  let doe := yoe * 365 + yoe / 4 - yoe / 100 + doy
  era * 146097 + doe

/-- Seconds on the absolute time line of a civil date-time (no zone). -/
def civilToSec (y mo d h mi s : Nat) : Int :=
  (daysFromCivil y mo d : Int) * 86400 + (h : Int) * 3600 + (mi : Int) * 60 + s

/-- The numeric zone offset in seconds: `Z`, or `±HH:MM`. -/
def parseZone : List Char → Option Int
  | ['Z'] => some 0
  | [sign, h1, h2, ':', m1, m2] => do
    let h ← num2 h1 h2
    let m ← num2 m1 m2
    if h ≤ 23 ∧ m ≤ 59 then
      match sign with
      | '+' => some ((h : Int) * 3600 + (m : Int) * 60)
      | '-' => some (-((h : Int) * 3600 + (m : Int) * 60))
      | _ => none
    else none
  | _ => none

/-- `time.Parse(time.RFC3339, s)`, as the UTC instant in seconds. -/
def parseRFC3339 (s : String) : Option Int :=
  match s.data with
  | y1 :: y2 :: y3 :: y4 :: s1 :: mo1 :: mo2 :: s2 :: d1 :: d2 :: st ::
    h1 :: h2 :: s3 :: mi1 :: mi2 :: s4 :: sc1 :: sc2 :: zone =>
    if s1 = '-' ∧ s2 = '-' ∧ st = 'T' ∧ s3 = ':' ∧ s4 = ':' then do
      let y ← num4 y1 y2 y3 y4
      let mo ← num2 mo1 mo2
      let d ← num2 d1 d2
      let h ← num2 h1 h2
      let mi ← num2 mi1 mi2
      let sec ← num2 sc1 sc2
      let off ← parseZone zone
      if 1 ≤ mo ∧ mo ≤ 12 ∧ 1 ≤ d ∧ d ≤ 31 ∧ h ≤ 23 ∧ mi ≤ 59 ∧ sec ≤ 59 then
        some (civilToSec y mo d h mi sec - off)
      else none
    else none
  | _ => none

/-- The instant of Go's zero `time.Time` (0001-01-01T00:00:00 UTC), the value
`time.Parse` leaves behind when its error is ignored. -/
def goZeroTimeSec : Int := civilToSec 1 1 1 0 0 0

/-- The clock value of an operation: `time.Now()` is passed in as the RFC3339
string `now`; its instant (always parseable in Go) is read back off it. -/
def nowSecondsOf (now : String) : Int := (parseRFC3339 now).getD 0

/-! ## Data model (`pkg/types`) -/

/-- `types.UsageInfo`. -/
structure UsageInfo where
  promptTokens : Int
  completionTokens : Int
  totalTokens : Int
deriving DecidableEq

/-- `types.CacheEntry`. -/
structure CacheEntry where
  message : String
  provider : LLMProvider
  diffHash : String
  styleInstruction : String
  attempt : Int
  createdAt : String
  lastAccessedAt : String
  accessCount : Int
  cost : ℚ
  tokens : Option UsageInfo
deriving DecidableEq

/-- `types.CacheStats`. -/
structure CacheStats where
  totalEntries : Int
  totalHits : Int
  totalMisses : Int
  hitRate : ℚ
  totalCostSaved : ℚ
  oldestEntry : String
  newestEntry : String
  cacheSizeBytes : Int
deriving DecidableEq

/-- `types.CacheConfig`. -/
structure CacheConfig where
  enabled : Bool
  maxEntries : Int
  maxAgeDays : Int
  cleanupInterval : Int
  cacheFilePath : String
deriving DecidableEq

/-- The single JSON document `saveCache` writes: the whole entries map, the
stats object and the config. -/
structure CacheDocument where
  entries : List (String × CacheEntry)
  stats : CacheStats
  config : CacheConfig
deriving DecidableEq

/-- The mutable state of a `CacheManager` plus the state of its backing file
(`fileState = none` means the cache file does not exist). -/
structure CacheManager where
  config : CacheConfig
  entries : List (String × CacheEntry)
  stats : CacheStats
  fileState : Option CacheDocument
deriving DecidableEq

/-! ## Go map operations on the association-list model -/

/-- `entry, exists := cm.entries[key]`. -/
def mapLookup (k : String) : List (String × CacheEntry) → Option CacheEntry
  | [] => none
  | (k', v) :: rest => if k' = k then some v else mapLookup k rest

/-- `cm.entries[key] = entry` (replaces the binding in place, else adds it). -/
def mapInsert (k : String) (v : CacheEntry) :
    List (String × CacheEntry) → List (String × CacheEntry)
  | [] => [(k, v)]
  | (k', v') :: rest =>
    if k' = k then (k, v) :: rest else (k', v') :: mapInsert k v rest

/-! ## The cache manager (`internal/cache` `CacheManager`) -/

/-- `CacheStats{}`: the zero value. -/
def emptyStats : CacheStats := ⟨0, 0, 0, 0, 0, "", "", 0⟩

/-- Helper `getStyleInstruction`. -/
def getStyleInstruction : Option GenerationOptions → String
  | none => ""
  | some o => o.styleInstruction

/-- Helper `getAttempt`. -/
def getAttempt : Option GenerationOptions → Int
  | none => 1
  | some o => o.attempt

/-- `NewCacheManager` with the cache file path already resolved and `disk`
the parsed content of an existing cache file (`none`: no file yet;
`loadCache` then leaves the fresh empty state in place). -/
def NewCacheManager (cachePath : String) (disk : Option CacheDocument) :
    CacheManager :=
  let config : CacheConfig :=
    { enabled := true, maxEntries := 1000, maxAgeDays := 30,
      cleanupInterval := 24, cacheFilePath := cachePath }
  let cm : CacheManager :=
    { config := config, entries := [], stats := emptyStats, fileState := disk }
  match disk with
  | none => cm
  | some d => { cm with entries := d.entries, stats := d.stats }

/-- A manager fresh from `NewCacheManager` with no cache file on disk. -/
def freshCache : CacheManager := NewCacheManager "cache.json" none

/-- `CacheManager.updateHitRate`. -/
def updateHitRate (st : CacheStats) : CacheStats :=
  let total := st.totalHits + st.totalMisses
  if total > 0 then
    { st with hitRate := (st.totalHits : ℚ) / (total : ℚ) }
  else st

/-- `CacheManager.Get`.  Mirrors the source faithfully, including the
mutation of the entry's access metadata and of the hit/miss counters that
the code performs while holding only `mutex.RLock()`. -/
def CacheManager.Get (cm : CacheManager) (provider : LLMProvider)
    (diff : String) (opts : Option GenerationOptions) (now : String) :
    Option CacheEntry × CacheManager :=
  let key := GenerateCacheKey provider diff opts
  match mapLookup key cm.entries with
  | none =>
    let stats :=
      updateHitRate { cm.stats with totalMisses := cm.stats.totalMisses + 1 }
    (none, { cm with stats := stats })
  | some entry =>
    let entry :=
      { entry with lastAccessedAt := now, accessCount := entry.accessCount + 1 }
    let stats :=
      updateHitRate { cm.stats with totalHits := cm.stats.totalHits + 1 }
    (some entry, { cm with entries := mapInsert key entry cm.entries,
                           stats := stats })

/-- The local sort key `sort.Slice` uses inside `removeLeastAccessed`:
`time.Parse(time.RFC3339, e.LastAccessedAt)` with the error ignored, so an
unparsable value sorts as Go's zero time. -/
def accessTime (e : CacheEntry) : Int :=
  (parseRFC3339 e.lastAccessedAt).getD goZeroTimeSec

def insertByAccess (x : String × CacheEntry) :
    List (String × CacheEntry) → List (String × CacheEntry)
  | [] => [x]
  | y :: ys =>
    if accessTime x.2 ≤ accessTime y.2 then x :: y :: ys
    else y :: insertByAccess x ys

/-- `sort.Slice` by `LastAccessedAt` ascending (the sort is unstable in Go,
so any order of equal keys is a faithful refinement). -/
def sortByAccess : List (String × CacheEntry) → List (String × CacheEntry)
  | [] => []
  | x :: xs => insertByAccess x (sortByAccess xs)

/-- `CacheManager.removeLeastAccessed`, as the value its local slice
`existingKeysToDelete` holds when the function returns.  Go passes the
`[]string` slice header by value, so this value never reaches the caller
(see `cleanupOldEntries` below). -/
def CacheManager.removeLeastAccessed (cm : CacheManager)
    (existingKeysToDelete : List String) : List String :=
  let entries := cm.entries.filter fun p => !(existingKeysToDelete.contains p.1)
  let sorted := sortByAccess entries
  let entriesToRemove : Int :=
    (entries.length : Int) -
      (cm.config.maxEntries - (existingKeysToDelete.length : Int))
  existingKeysToDelete ++ (sorted.take entriesToRemove.toNat).map (·.1)

/-- The age pass of `cleanupOldEntries`: the keys marked for deletion because
`CreatedAt` does not parse, or the entry is older than `MaxAgeDays`. -/
def cleanupDeleteKeys (cm : CacheManager) (now : String) : List String :=
  let maxAge : Int := cm.config.maxAgeDays * 24 * 3600
  cm.entries.filterMap fun p =>
    match parseRFC3339 p.2.createdAt with
    | none => some p.1
    | some t => if nowSecondsOf now - t > maxAge then some p.1 else none

/-- `CacheManager.cleanupOldEntries` (always returns `nil` in Go). -/
def CacheManager.cleanupOldEntries (cm : CacheManager) (now : String) :
    CacheManager :=
  let keysToDelete := cleanupDeleteKeys cm now
  let keysToDelete :=
    if (cm.entries.length : Int) - (keysToDelete.length : Int) >
        cm.config.maxEntries then
      -- `cm.removeLeastAccessed(keysToDelete)`: the callee appends to its
      -- by-value copy of the slice header, so the caller's `keysToDelete`
      -- is unchanged when the call returns, whether or not the branch runs.
      keysToDelete
    else keysToDelete
  let entries := cm.entries.filter fun p => !(keysToDelete.contains p.1)
  { cm with entries := entries,
            stats := { cm.stats with totalEntries := (entries.length : Int) } }

/-- `CacheManager.saveCache`: one synchronous write of the whole serialized
store (directory creation and write failures are outside the model, so the
save always succeeds). -/
def CacheManager.saveCache (cm : CacheManager) : CacheManager :=
  { cm with fileState := some ⟨cm.entries, cm.stats, cm.config⟩ }

/-- The entry `Set` constructs. -/
def mkSetEntry (provider : LLMProvider) (diff : String)
    (opts : Option GenerationOptions) (message : String) (cost : ℚ)
    (tokens : Option UsageInfo) (now : String) : CacheEntry :=
  { message := message, provider := provider,
    diffHash := GenerateHash diff opts,
    styleInstruction := getStyleInstruction opts,
    attempt := getAttempt opts, createdAt := now, lastAccessedAt := now,
    accessCount := 1, cost := cost, tokens := tokens }

/-- `CacheManager.Set` (returns the save error in Go; the modelled save
always succeeds, so only the state is returned). -/
def CacheManager.Set (cm : CacheManager) (provider : LLMProvider)
    (diff : String) (opts : Option GenerationOptions) (message : String)
    (cost : ℚ) (tokens : Option UsageInfo) (now : String) : CacheManager :=
  let key := GenerateCacheKey provider diff opts
  let entry := mkSetEntry provider diff opts message cost tokens now
  let cm := { cm with entries := mapInsert key entry cm.entries }
  let cm :=
    { cm with stats :=
        { cm.stats with totalEntries := (cm.entries.length : Int) } }
  let cm :=
    if (cm.entries.length : Int) > cm.config.maxEntries then
      cm.cleanupOldEntries now
    else cm
  cm.saveCache

/-- The file-system errors distinguishable in the model. -/
inductive FsError
  | notExist
deriving DecidableEq

/-- `os.Remove` on the modelled file system. -/
def osRemove : Option CacheDocument → Except FsError (Option CacheDocument)
  | none => .error .notExist
  | some _ => .ok none

/-- `CacheManager.Clear`: empties the map, zeroes the stats and removes the
backing file, tolerating `os.IsNotExist`. -/
def CacheManager.Clear (cm : CacheManager) : Option FsError × CacheManager :=
  let cm := { cm with entries := [], stats := emptyStats }
  match osRemove cm.fileState with
  | .ok fs => (none, { cm with fileState := fs })
  | .error e => if e = .notExist then (none, cm) else (some e, cm)

/-- `CacheManager.Cleanup`: runs the eviction pass; its Go error is always
`nil` because `cleanupOldEntries` always returns `nil`. -/
def CacheManager.Cleanup (cm : CacheManager) (now : String) : CacheManager :=
  cm.cleanupOldEntries now

/-- The byte size `os.Stat` reports for the cache file.  The exact JSON byte
count is abstracted (no claim depends on it); only the success of `os.Stat`
matters, which the model ties to the file's existence. -/
def docSize (d : CacheDocument) : Int := (d.entries.length : Int)

/-- The loop body of `calculateStats`: running `(oldest, newest, totalCost)`
accumulators threaded with the stats being mutated in place.  An entry whose
`CreatedAt` does not parse is skipped (`continue`). -/
def statsLoop : Int → Int → ℚ → CacheStats → List (String × CacheEntry) →
    ℚ × CacheStats
  | _, _, cost, st, [] => (cost, st)
  | oldest, newest, cost, st, (_, e) :: rest =>
    match parseRFC3339 e.createdAt with
    | none => statsLoop oldest newest cost st rest
    | some t =>
      let po :=
        if oldest = goZeroTimeSec ∨ t < oldest then
          (t, { st with oldestEntry := e.createdAt })
        else (oldest, st)
      let pn :=
        if newest = goZeroTimeSec ∨ t > newest then
          (t, { po.2 with newestEntry := e.createdAt })
        else (newest, po.2)
      statsLoop po.1 pn.1 (cost + e.cost) pn.2 rest

/-- `CacheManager.calculateStats`. -/
def CacheManager.calculateStats (cm : CacheManager) : CacheManager :=
  if cm.entries.length = 0 then
    { cm with stats :=
        { cm.stats with oldestEntry := "", newestEntry := "",
                        cacheSizeBytes := 0 } }
  else
    let r := statsLoop goZeroTimeSec goZeroTimeSec 0 cm.stats cm.entries
    let st := { r.2 with totalCostSaved := r.1 }
    let st :=
      match cm.fileState with
      | some d => { st with cacheSizeBytes := docSize d }
      | none => st
    { cm with stats := st }

/-- `CacheManager.GetStats`: recomputes the derived stats, then returns a
copy of the stats value. -/
def CacheManager.GetStats (cm : CacheManager) : CacheStats × CacheManager :=
  let cm := cm.calculateStats
  (cm.stats, cm)

/-! ## Lock acquisition modes (`sync.RWMutex`), read off the source -/

inductive LockMode
  | read
  | write
deriving DecidableEq

/-- `Get` acquires `cm.mutex.RLock()`. -/
def getLockMode : LockMode := .read

/-- `Set` acquires `cm.mutex.Lock()`. -/
def setLockMode : LockMode := .write

/-- `Clear` acquires `cm.mutex.Lock()`. -/
def clearLockMode : LockMode := .write

/-- `Cleanup` acquires `cm.mutex.Lock()`. -/
def cleanupLockMode : LockMode := .write

/-- `GetStats` acquires `cm.mutex.RLock()`. -/
def getStatsLockMode : LockMode := .read

/-! ## Derived notions and concrete stores used by the verification -/

/-- One `Get` call: its arguments plus the clock value at the call. -/
structure GetRequest where
  provider : LLMProvider
  diff : String
  opts : Option GenerationOptions
  now : String
deriving DecidableEq

/-- Run a sequence of `Get` calls, threading the manager state. -/
def applyGets : CacheManager → List GetRequest → CacheManager
  | cm, [] => cm
  | cm, r :: rs => applyGets (cm.Get r.provider r.diff r.opts r.now).2 rs

/-- The on-disk file is exactly the serialization of the current store (the
entries map, the stats object and the config), as one document. -/
def fileReflectsStore (cm : CacheManager) : Prop :=
  cm.fileState = some ⟨cm.entries, cm.stats, cm.config⟩

/-- The configuration `NewCacheManager` builds (path resolved). -/
def stdConfig : CacheConfig :=
  { enabled := true, maxEntries := 1000, maxAgeDays := 30,
    cleanupInterval := 24, cacheFilePath := "cache.json" }

/-- A store whose single entry has an unparsable `CreatedAt` and whose cache
file currently reflects that store. -/
def badDateEntry : CacheEntry :=
  { message := "feat: add X", provider := ProviderOpenAI, diffHash := "d41d8c",
    styleInstruction := "", attempt := 1, createdAt := "not-a-date",
    lastAccessedAt := "2025-01-01T00:00:00Z", accessCount := 1, cost := 0,
    tokens := none }

def badDateStats : CacheStats := { emptyStats with totalEntries := 1 }

def badDateStore : CacheManager :=
  { config := stdConfig, entries := [("k1", badDateEntry)],
    stats := badDateStats,
    fileState := some ⟨[("k1", badDateEntry)], badDateStats, stdConfig⟩ }

/-- The capacity-eviction scenario of C1 with `maxEntries = 2`: five `Set`
calls with distinct diffs, at one-second intervals. -/
def c1Config : CacheConfig :=
  { enabled := true, maxEntries := 2, maxAgeDays := 30,
    cleanupInterval := 24, cacheFilePath := "cache.json" }

def c1Start : CacheManager :=
  { config := c1Config, entries := [], stats := emptyStats, fileState := none }

def c1After : CacheManager :=
  (((((c1Start.Set ProviderOpenAI "+one" none "m1" 0 none
        "2025-01-01T00:00:01Z").Set
      ProviderOpenAI "+two" none "m2" 0 none "2025-01-01T00:00:02Z").Set
      ProviderOpenAI "+three" none "m3" 0 none "2025-01-01T00:00:03Z").Set
      ProviderOpenAI "+four" none "m4" 0 none "2025-01-01T00:00:04Z").Set
      ProviderOpenAI "+five" none "m5" 0 none "2025-01-01T00:00:05Z")

/-! ## General lemmas about the embedded operations -/

theorem strData_append (a b : String) : (a ++ b).data = a.data ++ b.data := by
  cases a; cases b; rfl

theorem strData_inj {a b : String} (h : a.data = b.data) : a = b := by
  cases a; cases b; exact congrArg String.mk h

/-- Equal cache keys with equal fingerprints force equal providers. -/
theorem provider_eq_of_key_eq {pA pB : LLMProvider} {d : String}
    {o : Option GenerationOptions}
    (h : GenerateCacheKey pA d o = GenerateCacheKey pB d o) : pA = pB := by
  have hd := congrArg String.data h
  unfold GenerateCacheKey at hd
  rw [strData_append, strData_append, strData_append, strData_append] at hd
  rw [List.append_assoc, List.append_assoc] at hd
  exact strData_inj (List.append_cancel_right hd)

/-- Distinct fingerprints force distinct cache keys under one provider. -/
theorem key_ne_of_hash_ne {p : LLMProvider} {d₁ d₂ : String}
    {o₁ o₂ : Option GenerationOptions}
    (h : GenerateHash d₁ o₁ ≠ GenerateHash d₂ o₂) :
    GenerateCacheKey p d₁ o₁ ≠ GenerateCacheKey p d₂ o₂ := by
  intro he
  apply h
  have hd := congrArg String.data he
  unfold GenerateCacheKey at hd
  rw [strData_append, strData_append, strData_append, strData_append] at hd
  exact strData_inj (List.append_cancel_left hd)

theorem mapLookup_insert_ne {k k' : String} {v : CacheEntry}
    (l : List (String × CacheEntry)) (h : k' ≠ k) :
    mapLookup k' (mapInsert k v l) = mapLookup k' l := by
  induction l with
  | nil => simp [mapInsert, mapLookup, Ne.symm h]
  | cons p rest ih =>
    obtain ⟨k₀, v₀⟩ := p
    by_cases hk : k₀ = k
    · subst hk
      simp [mapInsert, mapLookup, Ne.symm h]
    · simp [mapInsert, mapLookup, hk, ih]

theorem mapLookup_insert_self (k : String) (v : CacheEntry)
    (l : List (String × CacheEntry)) :
    mapLookup k (mapInsert k v l) = some v := by
  induction l with
  | nil => simp [mapInsert, mapLookup]
  | cons p rest ih =>
    obtain ⟨k₀, v₀⟩ := p
    by_cases hk : k₀ = k
    · subst hk; simp [mapInsert, mapLookup]
    · simp [mapInsert, mapLookup, hk, ih]

theorem mapLookup_filter_none {k : String} {l : List (String × CacheEntry)}
    (p : String × CacheEntry → Bool) (h : mapLookup k l = none) :
    mapLookup k (l.filter p) = none := by
  induction l with
  | nil => simp [mapLookup]
  | cons q rest ih =>
    obtain ⟨k₀, v₀⟩ := q
    by_cases hk : k₀ = k
    · subst hk; simp [mapLookup] at h
    · simp only [mapLookup, if_neg hk] at h
      by_cases hp : p (k₀, v₀)
      · simp [List.filter, hp, mapLookup, hk, ih h]
      · simp [List.filter, hp, ih h]

/-- A key in the deletion list never survives the deletion pass. -/
theorem mapLookup_filter_deleted {k : String} {del : List String}
    (l : List (String × CacheEntry)) (h : del.contains k = true) :
    mapLookup k (l.filter fun p => !(del.contains p.1)) = none := by
  have hmem : k ∈ del := by simpa using h
  induction l with
  | nil => rfl
  | cons q rest ih =>
    obtain ⟨k₀, v₀⟩ := q
    by_cases hp : k₀ ∈ del
    · simpa [List.filter_cons, hp] using ih
    · have hne : k₀ ≠ k := fun he => hp (he ▸ hmem)
      simp only [List.filter_cons]
      simpa [hp, mapLookup, hne] using ih

/-- The entries surviving `cleanupOldEntries` are exactly those whose key the
age pass did not mark (the capacity pass contributes nothing: Go discards
the appends `removeLeastAccessed` makes to its by-value slice argument). -/
theorem cleanup_entries_eq (cm : CacheManager) (now : String) :
    (cm.cleanupOldEntries now).entries =
      cm.entries.filter fun p => !((cleanupDeleteKeys cm now).contains p.1) := by
  unfold CacheManager.cleanupOldEntries
  simp only [ite_self]

theorem updateHitRate_counters (st : CacheStats) :
    (updateHitRate st).totalHits = st.totalHits ∧
    (updateHitRate st).totalMisses = st.totalMisses := by
  unfold updateHitRate
  by_cases h : st.totalHits + st.totalMisses > 0 <;> simp [h]

theorem updateHitRate_pos {st : CacheStats}
    (h : 0 < st.totalHits + st.totalMisses) :
    (updateHitRate st).hitRate =
      (st.totalHits : ℚ) / ((st.totalHits : ℚ) + (st.totalMisses : ℚ)) := by
  unfold updateHitRate
  rw [if_pos h]
  push_cast
  rfl

theorem Get_stats_eq (cm : CacheManager) (p : LLMProvider) (d : String)
    (o : Option GenerationOptions) (now : String) :
    ((cm.Get p d o now).2).stats =
      (match mapLookup (GenerateCacheKey p d o) cm.entries with
       | none =>
         updateHitRate { cm.stats with totalMisses := cm.stats.totalMisses + 1 }
       | some _ =>
         updateHitRate { cm.stats with totalHits := cm.stats.totalHits + 1 }) := by
  unfold CacheManager.Get
  dsimp only
  cases h : mapLookup (GenerateCacheKey p d o) cm.entries <;> simp [h]

theorem Get_found {cm : CacheManager} {p : LLMProvider} {d : String}
    {o : Option GenerationOptions} {now k : String} {e : CacheEntry}
    (hkey : GenerateCacheKey p d o = k)
    (hlook : mapLookup k cm.entries = some e) :
    (cm.Get p d o now).1 =
      some { e with lastAccessedAt := now,
                    accessCount := e.accessCount + 1 } := by
  unfold CacheManager.Get
  dsimp only
  rw [hkey, hlook]

theorem Get_miss {cm : CacheManager} {p : LLMProvider} {d : String}
    {o : Option GenerationOptions} {now : String}
    (hlook : mapLookup (GenerateCacheKey p d o) cm.entries = none) :
    (cm.Get p d o now).1 = none := by
  unfold CacheManager.Get
  dsimp only
  rw [hlook]

/-- The entries after `Set`: the insertion, possibly filtered by the age
pass of the capacity-triggered cleanup. -/
theorem Set_entries_lookup_none {cm : CacheManager} {p : LLMProvider}
    {d : String} {o : Option GenerationOptions} {k : String}
    (msg : String) (cost : ℚ) (tok : Option UsageInfo) (now : String)
    (hk : k ≠ GenerateCacheKey p d o)
    (h0 : mapLookup k cm.entries = none) :
    mapLookup k ((cm.Set p d o msg cost tok now).entries) = none := by
  unfold CacheManager.Set CacheManager.saveCache
  dsimp only
  split
  · rw [cleanup_entries_eq]
    exact mapLookup_filter_none _ (by rw [mapLookup_insert_ne _ hk]; exact h0)
  · rw [mapLookup_insert_ne _ hk]
    exact h0

theorem Set_entries_no_cleanup {cm : CacheManager} {p : LLMProvider}
    {d : String} {o : Option GenerationOptions} {msg : String} {cost : ℚ}
    {tok : Option UsageInfo} {now : String}
    (h : ¬ (((mapInsert (GenerateCacheKey p d o)
        (mkSetEntry p d o msg cost tok now) cm.entries).length : Int) >
          cm.config.maxEntries)) :
    (cm.Set p d o msg cost tok now).entries =
      mapInsert (GenerateCacheKey p d o) (mkSetEntry p d o msg cost tok now)
        cm.entries := by
  unfold CacheManager.Set CacheManager.saveCache
  dsimp only
  rw [if_neg h]

theorem buildHashInput_attempt_ge_two {nd style : String} {a : Int}
    (ha : 2 ≤ a) :
    buildHashInput nd (some ⟨style, a⟩) = buildHashInput nd (some ⟨style, 2⟩) := by
  unfold buildHashInput
  dsimp only
  rw [if_neg (by omega : ¬ (a ≤ 1)), if_neg (by omega : ¬ ((2 : Int) ≤ 1))]

/-- All regeneration attempts (`≥ 2`) produce one and the same fingerprint. -/
theorem GenerateHash_attempt_ge_two {d style : String} {a b : Int}
    (ha : 2 ≤ a) (hb : 2 ≤ b) :
    GenerateHash d (some ⟨style, a⟩) = GenerateHash d (some ⟨style, b⟩) := by
  unfold GenerateHash
  rw [buildHashInput_attempt_ge_two ha, buildHashInput_attempt_ge_two hb]

theorem statsLoop_preserves (l : List (String × CacheEntry)) :
    ∀ (o n : Int) (c : ℚ) (st : CacheStats),
      (statsLoop o n c st l).2.totalHits = st.totalHits ∧
      (statsLoop o n c st l).2.totalMisses = st.totalMisses ∧
      (statsLoop o n c st l).2.hitRate = st.hitRate := by
  induction l with
  | nil => intro o n c st; exact ⟨rfl, rfl, rfl⟩
  | cons q rest ih =>
    intro o n c st
    obtain ⟨k, e⟩ := q
    unfold statsLoop
    cases hp : parseRFC3339 e.createdAt with
    | none => exact ih _ _ _ _
    | some t =>
      dsimp only
      split <;> split <;> exact ih _ _ _ _

theorem calculateStats_preserves (cm : CacheManager) :
    (cm.calculateStats).stats.totalHits = cm.stats.totalHits ∧
    (cm.calculateStats).stats.totalMisses = cm.stats.totalMisses ∧
    (cm.calculateStats).stats.hitRate = cm.stats.hitRate := by
  unfold CacheManager.calculateStats
  split
  · exact ⟨rfl, rfl, rfl⟩
  · obtain ⟨a, b, c⟩ :=
      statsLoop_preserves cm.entries goZeroTimeSec goZeroTimeSec 0 cm.stats
    cases h : cm.fileState <;> simp [h, a, b, c]

theorem GetStats_fst (cm : CacheManager) :
    (cm.GetStats).1 = (cm.calculateStats).stats := rfl

theorem wordHexChars_length (w : Nat) : (wordHexChars w).length = 8 := rfl

theorem sha256Hex_length (s : String) : (sha256Hex s).length = 64 := by
  unfold sha256Hex
  dsimp only
  show (List.flatMap _ wordHexChars).length = 64
  simp [List.flatMap, wordHexChars_length]

theorem hexDigit_mem {m : Nat} (h : m < 16) :
    hexDigit m ∈ ("0123456789abcdef").data := by
  interval_cases m <;> decide

theorem mem_wordHexChars {c : Char} {w : Nat} (hcw : c ∈ wordHexChars w) :
    c ∈ ("0123456789abcdef").data := by
  unfold wordHexChars at hcw
  simp only [List.mem_cons, List.not_mem_nil, or_false] at hcw
  rcases hcw with h | h | h | h | h | h | h | h <;>
    exact h ▸ hexDigit_mem (Nat.mod_lt _ (by omega))

theorem sha256Hex_chars (s : String) :
    ∀ c ∈ (sha256Hex s).data, c ∈ ("0123456789abcdef").data := by
  unfold sha256Hex
  dsimp only
  intro c hc
  rw [List.mem_flatMap] at hc
  obtain ⟨w, _, hcw⟩ := hc
  exact mem_wordHexChars hcw

set_option maxRecDepth 100000 in
/-- Sanity check of the SHA-256 model against the FIPS 180-2 test vector. -/
theorem sha256Hex_abc :
    sha256Hex "abc" =
      "ba7816bf8f01cfea414140de5dae2223b00361a396177a9cb410ff61f20015ad" := by
  decide

/-! ## The claims -/

/-- C4: `GenerateHash` is a pure, deterministic function: two calls on the
same diff and options (`nil` included) return the identical digest, and the
digest is a 64-character hex string. -/
theorem C4_generate_hash_deterministic (d : String)
    (o : Option GenerationOptions) :
    GenerateHash d o = GenerateHash d o ∧
    (GenerateHash d o).length = 64 ∧
    ∀ c ∈ (GenerateHash d o).data, c ∈ ("0123456789abcdef").data :=
  ⟨rfl, sha256Hex_length _, sha256Hex_chars _⟩

/-- C5: providers with different identifier strings always get different
cache keys for the same diff and options. -/
theorem C5_key_namespacing (pA pB : LLMProvider) (d : String)
    (o : Option GenerationOptions) (h : pA ≠ pB) :
    GenerateCacheKey pA d o ≠ GenerateCacheKey pB d o :=
  fun he => h (provider_eq_of_key_eq he)

/-- Witness for C5 at `OpenAI` versus `Claude`. -/
theorem C5_key_namespacing_witness :
    ProviderOpenAI ≠ ProviderClaude ∧
    GenerateCacheKey ProviderOpenAI "+x" none ≠
      GenerateCacheKey ProviderClaude "+x" none :=
  ⟨by decide, C5_key_namespacing ProviderOpenAI ProviderClaude "+x" none
    (by decide)⟩

/-- C8: `Clear` empties the map, zeroes the stats, removes the cache file
(an already-absent file counting as success), and a second `Clear` in a row
also returns no error. -/
theorem C8_clear_idempotent (cm : CacheManager) :
    (cm.Clear).1 = none ∧
    (cm.Clear).2.entries = [] ∧
    (cm.Clear).2.stats = emptyStats ∧
    (cm.Clear).2.fileState = none ∧
    ((cm.Clear).2.Clear).1 = none := by
  obtain ⟨cfg, ents, st, fs⟩ := cm
  cases fs <;> simp [CacheManager.Clear, osRemove]

set_option maxRecDepth 1000000 in
/-- C10: the lock modes each operation acquires.  The claim says `Get` locks
exclusively because it mutates access metadata and counters; the code does
perform those writes (final conjunct: even a miss on a fresh cache mutates
the stats) but acquires only the shared read lock `RLock`, so the claim
fails on the code. -/
theorem C10_lock_modes :
    getLockMode = LockMode.read ∧
    getLockMode ≠ LockMode.write ∧
    setLockMode = LockMode.write ∧
    clearLockMode = LockMode.write ∧
    cleanupLockMode = LockMode.write ∧
    ((freshCache.Get ProviderOpenAI "+x" none
        "2025-01-01T00:00:00Z").2).stats ≠ freshCache.stats := by
  refine ⟨rfl, by decide, rfl, rfl, rfl, ?_⟩
  decide

/-- C7: an entry whose `CreatedAt` fails to parse is marked for deletion by
the eviction pass regardless of its age or access recency, and it
contributes nothing to the loop `GetStats` uses to compute the oldest
and newest entry statistics. -/
theorem C7_unparsable_created_at_fail_safe :
    (∀ (cm : CacheManager) (now k : String) (e : CacheEntry),
       (k, e) ∈ cm.entries → parseRFC3339 e.createdAt = none →
       mapLookup k ((cm.Cleanup now).entries) = none) ∧
    (∀ (o n : Int) (c : ℚ) (st : CacheStats) (k : String) (e : CacheEntry)
       (rest : List (String × CacheEntry)),
       parseRFC3339 e.createdAt = none →
       statsLoop o n c st ((k, e) :: rest) = statsLoop o n c st rest) := by
  constructor
  · intro cm now k e hmem hparse
    have hdel : (cleanupDeleteKeys cm now).contains k = true := by
      unfold cleanupDeleteKeys
      dsimp only
      have hk : k ∈ cm.entries.filterMap fun p =>
          match parseRFC3339 p.2.createdAt with
          | none => some p.1
          | some t =>
            if nowSecondsOf now - t > (cm.config.maxAgeDays * 24 * 3600 : Int)
            then some p.1 else none := by
        rw [List.mem_filterMap]
        exact ⟨(k, e), hmem, by simp [hparse]⟩
      simpa using hk
    show mapLookup k ((cm.cleanupOldEntries now).entries) = none
    rw [cleanup_entries_eq]
    exact mapLookup_filter_deleted _ hdel
  · intro o n c st k e rest hparse
    conv_lhs => rw [statsLoop]
    rw [hparse]

set_option maxRecDepth 100000 in
/-- Witness for C7 on a one-entry store whose `CreatedAt` is `"not-a-date"`. -/
theorem C7_unparsable_created_at_fail_safe_witness :
    (("k1", badDateEntry) ∈ badDateStore.entries ∧
     parseRFC3339 badDateEntry.createdAt = none ∧
     mapLookup "k1" ((badDateStore.Cleanup "2025-01-02T00:00:00Z").entries) =
       none) ∧
    (parseRFC3339 badDateEntry.createdAt = none ∧
     statsLoop 0 0 0 emptyStats [("k1", badDateEntry)] =
       statsLoop 0 0 0 emptyStats []) :=
  ⟨⟨by decide, by decide,
    C7_unparsable_created_at_fail_safe.1 badDateStore "2025-01-02T00:00:00Z"
      "k1" badDateEntry (by decide) (by decide)⟩,
   ⟨by decide,
    C7_unparsable_created_at_fail_safe.2 0 0 0 emptyStats "k1" badDateEntry []
      (by decide)⟩⟩

set_option maxRecDepth 100000 in
/-- C3 counterexample: `Cleanup` evicts the entry with the unparsable
timestamp from the in-memory map but performs no file write, so afterwards
the on-disk document does not reflect the post-eviction store. -/
theorem C3_persistence_counterexample :
    ¬ fileReflectsStore (badDateStore.Cleanup "2025-01-02T00:00:00Z") := by
  unfold fileReflectsStore
  decide

/-- C3 amended: `Set` serializes the entire store (entries, stats, config)
as one document after any eviction it triggers; `Clear` removes the backing
file instead of serializing; `Cleanup` performs no file I/O at all, leaving
the pre-eviction document on disk. -/
theorem C3_persistence_amended :
    (∀ (cm : CacheManager) (p : LLMProvider) (d : String)
       (o : Option GenerationOptions) (msg : String) (cost : ℚ)
       (tok : Option UsageInfo) (now : String),
       fileReflectsStore (cm.Set p d o msg cost tok now)) ∧
    (∀ cm : CacheManager, ((cm.Clear).2).fileState = none) ∧
    (∀ (cm : CacheManager) (now : String),
       (cm.Cleanup now).fileState = cm.fileState) := by
  refine ⟨?_, ?_, ?_⟩
  · intro cm p d o msg cost tok now
    unfold fileReflectsStore CacheManager.Set CacheManager.saveCache
    rfl
  · intro cm
    obtain ⟨cfg, ents, st, fs⟩ := cm
    cases fs <;> rfl
  · intro cm now
    rfl

set_option maxRecDepth 1000000 in
/-- C1 (code bug): with `maxEntries = 2`, five `Set` calls with distinct
keys, all entries fresh and parseable, leave five entries in the map — the
capacity pass never removes anything, because `removeLeastAccessed` appends
the LRU keys only to its by-value copy of the deletion slice.  The last
conjunct shows the three LRU keys the callee computes and then loses. -/
theorem C1_capacity_eviction_failing :
    c1After.config.maxEntries = 2 ∧
    c1After.entries.length = 5 ∧
    (c1After.removeLeastAccessed []).length = 3 := by
  decide

/-- C2: after a `Set` with attempt 1, a `Get` for the same provider, diff
and style with any attempt number ≥ 2 returns `found = false`.  The two
hash-input strings always differ; the inequality of their SHA-256 digests
(true unless SHA-256 collides on this pair, and verified concretely in the
witness) is taken as a hypothesis, as is the caller convention that the
regeneration key is not already occupied in the starting store. -/
theorem C2_regeneration_never_hits (cm : CacheManager) (p : LLMProvider)
    (d style : String) (n : Int) (msg : String) (cost : ℚ)
    (tok : Option UsageInfo) (now₁ now₂ : String) (_hn : 2 ≤ n)
    (hhash : GenerateHash d (some ⟨style, 1⟩) ≠
      GenerateHash d (some ⟨style, n⟩))
    (hfree : mapLookup (GenerateCacheKey p d (some ⟨style, n⟩)) cm.entries =
      none) :
    ((cm.Set p d (some ⟨style, 1⟩) msg cost tok now₁).Get p d
        (some ⟨style, n⟩) now₂).1 = none := by
  apply Get_miss
  exact Set_entries_lookup_none msg cost tok now₁
    (key_ne_of_hash_ne (Ne.symm hhash)) hfree

set_option maxRecDepth 1000000 in
/-- Witness for C2: a concrete attempt-1 `Set` and attempt-2 `Get` on a
fresh cache, with the digest inequality checked by computation. -/
theorem C2_regeneration_never_hits_witness :
    2 ≤ (2 : Int) ∧
    GenerateHash "+alpha" (some ⟨"", 1⟩) ≠
      GenerateHash "+alpha" (some ⟨"", 2⟩) ∧
    mapLookup (GenerateCacheKey ProviderOpenAI "+alpha" (some ⟨"", 2⟩))
      freshCache.entries = none ∧
    ((freshCache.Set ProviderOpenAI "+alpha" (some ⟨"", 1⟩) "feat: add X"
        (1 / 500) none "2025-01-01T00:00:00Z").Get ProviderOpenAI "+alpha"
        (some ⟨"", 2⟩) "2025-01-01T00:00:01Z").1 = none :=
  ⟨by decide, by decide, rfl,
   C2_regeneration_never_hits freshCache ProviderOpenAI "+alpha" "" 2
     "feat: add X" (1 / 500) none "2025-01-01T00:00:00Z"
     "2025-01-01T00:00:01Z" (by decide) (by decide) rfl⟩

/-- C9: every attempt number ≥ 2 yields the identical fingerprint, and in
consequence an entry stored (against the stated convention) with attempt 2
is returned as a hit, with its message, by a later `Get` with attempt 3. -/
theorem C9_attempts_above_one_collide :
    (∀ (d style : String) (a b : Int), 2 ≤ a → 2 ≤ b →
       GenerateHash d (some ⟨style, a⟩) = GenerateHash d (some ⟨style, b⟩)) ∧
    (∀ (p : LLMProvider) (d style msg : String) (cost : ℚ)
       (tok : Option UsageInfo) (now₁ now₂ : String),
       (((freshCache.Set p d (some ⟨style, 2⟩) msg cost tok now₁).Get p d
           (some ⟨style, 3⟩) now₂).1).map (·.message) = some msg) := by
  constructor
  · intro d style a b ha hb
    exact GenerateHash_attempt_ge_two ha hb
  · intro p d style msg cost tok now₁ now₂
    have hkey : GenerateCacheKey p d (some ⟨style, 3⟩) =
        GenerateCacheKey p d (some ⟨style, 2⟩) := by
      unfold GenerateCacheKey
      rw [show GenerateHash d (some ⟨style, 3⟩) =
            GenerateHash d (some ⟨style, 2⟩) from
          GenerateHash_attempt_ge_two (by decide) (by decide)]
    have hset : (freshCache.Set p d (some ⟨style, 2⟩) msg cost tok
        now₁).entries =
        mapInsert (GenerateCacheKey p d (some ⟨style, 2⟩))
          (mkSetEntry p d (some ⟨style, 2⟩) msg cost tok now₁)
          freshCache.entries :=
      Set_entries_no_cleanup (by exact (by decide : ¬ ((1 : Int) > 1000)))
    have hlook : mapLookup (GenerateCacheKey p d (some ⟨style, 3⟩))
        ((freshCache.Set p d (some ⟨style, 2⟩) msg cost tok now₁).entries) =
        some (mkSetEntry p d (some ⟨style, 2⟩) msg cost tok now₁) := by
      rw [hset, hkey]
      exact mapLookup_insert_self _ _ _
    rw [Get_found rfl hlook]
    rfl

/-- Witness for C9 at attempts 2 and 3 on a concrete diff. -/
theorem C9_attempts_above_one_collide_witness :
    (2 ≤ (2 : Int) ∧ 2 ≤ (3 : Int) ∧
     GenerateHash "+x" (some ⟨"", 2⟩) = GenerateHash "+x" (some ⟨"", 3⟩)) ∧
    (((freshCache.Set ProviderOpenAI "+x" (some ⟨"", 2⟩) "feat: y" 0 none
        "2025-01-01T00:00:00Z").Get ProviderOpenAI "+x" (some ⟨"", 3⟩)
        "2025-01-01T00:00:01Z").1).map (·.message) = some "feat: y" :=
  ⟨⟨by decide, by decide,
    C9_attempts_above_one_collide.1 "+x" "" 2 3 (by decide) (by decide)⟩,
   C9_attempts_above_one_collide.2 ProviderOpenAI "+x" "" "feat: y" 0 none
     "2025-01-01T00:00:00Z" "2025-01-01T00:00:01Z"⟩

theorem Get_stats_step (cm : CacheManager) (p : LLMProvider) (d : String)
    (o : Option GenerationOptions) (now : String)
    (h0 : 0 ≤ cm.stats.totalHits) (h1 : 0 ≤ cm.stats.totalMisses) :
    0 ≤ ((cm.Get p d o now).2).stats.totalHits ∧
    0 ≤ ((cm.Get p d o now).2).stats.totalMisses ∧
    ((cm.Get p d o now).2).stats.totalHits +
      ((cm.Get p d o now).2).stats.totalMisses =
      cm.stats.totalHits + cm.stats.totalMisses + 1 ∧
    ((cm.Get p d o now).2).stats.hitRate =
      (((cm.Get p d o now).2).stats.totalHits : ℚ) /
      ((((cm.Get p d o now).2).stats.totalHits : ℚ) +
       (((cm.Get p d o now).2).stats.totalMisses : ℚ)) := by
  rw [Get_stats_eq]
  cases hl : mapLookup (GenerateCacheKey p d o) cm.entries with
  | none =>
    simp only [updateHitRate]
    split
    case isTrue h =>
      dsimp only
      refine ⟨h0, by omega, by omega, ?_⟩
      push_cast
      ring
    case isFalse h =>
      exfalso
      omega
  | some e =>
    simp only [updateHitRate]
    split
    case isTrue h =>
      dsimp only
      refine ⟨by omega, h1, by omega, ?_⟩
      push_cast
      ring
    case isFalse h =>
      exfalso
      omega

/-- Each `Get` increments exactly the matching counter: the hit counter on
a hit, the miss counter on a miss. -/
theorem Get_increments (cm : CacheManager) (p : LLMProvider) (d : String)
    (o : Option GenerationOptions) (now : String) :
    ((cm.Get p d o now).1.isSome = true →
       ((cm.Get p d o now).2).stats.totalHits = cm.stats.totalHits + 1 ∧
       ((cm.Get p d o now).2).stats.totalMisses = cm.stats.totalMisses) ∧
    ((cm.Get p d o now).1 = none →
       ((cm.Get p d o now).2).stats.totalHits = cm.stats.totalHits ∧
       ((cm.Get p d o now).2).stats.totalMisses =
         cm.stats.totalMisses + 1) := by
  unfold CacheManager.Get
  dsimp only
  cases hl : mapLookup (GenerateCacheKey p d o) cm.entries with
  | none =>
    refine ⟨fun h => by simp at h, fun _ => ?_⟩
    simp only [updateHitRate]
    split <;> exact ⟨rfl, rfl⟩
  | some e =>
    refine ⟨fun _ => ?_, fun h => by simp at h⟩
    simp only [updateHitRate]
    split <;> exact ⟨rfl, rfl⟩

theorem applyGets_invariant (rs : List GetRequest) :
    ∀ cm : CacheManager, 0 ≤ cm.stats.totalHits → 0 ≤ cm.stats.totalMisses →
      0 ≤ (applyGets cm rs).stats.totalHits ∧
      0 ≤ (applyGets cm rs).stats.totalMisses ∧
      (applyGets cm rs).stats.totalHits +
        (applyGets cm rs).stats.totalMisses =
        cm.stats.totalHits + cm.stats.totalMisses + (rs.length : Int) ∧
      (rs ≠ [] → (applyGets cm rs).stats.hitRate =
        ((applyGets cm rs).stats.totalHits : ℚ) /
        (((applyGets cm rs).stats.totalHits : ℚ) +
         ((applyGets cm rs).stats.totalMisses : ℚ))) := by
  induction rs with
  | nil =>
    intro cm h0 h1
    exact ⟨h0, h1, by simp [applyGets], fun h => absurd rfl h⟩
  | cons r rest ih =>
    intro cm h0 h1
    obtain ⟨s0, s1, ssum, srate⟩ :=
      Get_stats_step cm r.provider r.diff r.opts r.now h0 h1
    have happ : applyGets cm (r :: rest) =
        applyGets (cm.Get r.provider r.diff r.opts r.now).2 rest := rfl
    obtain ⟨i0, i1, isum, irate⟩ :=
      ih (cm.Get r.provider r.diff r.opts r.now).2 s0 s1
    refine ⟨happ ▸ i0, happ ▸ i1, ?_, ?_⟩
    · rw [happ, isum, ssum]
      simp only [List.length_cons]
      push_cast
      ring
    · intro _
      by_cases hrest : rest = []
      · subst hrest
        rw [happ]
        exact srate
      · rw [happ]
        exact irate hrest

/-- C6: from a fresh cache with zeroed counters, after any nonempty
sequence of `Get` calls the counters sum to the number of calls and
`GetStats` reports `hitRate = hits / (hits + misses)`; moreover every
single `Get`, hit or miss, increments exactly the matching counter. -/
theorem C6_hit_miss_accounting (reqs : List GetRequest) (hne : reqs ≠ []) :
    ((applyGets freshCache reqs).GetStats).1.totalHits +
      ((applyGets freshCache reqs).GetStats).1.totalMisses =
      (reqs.length : Int) ∧
    ((applyGets freshCache reqs).GetStats).1.hitRate =
      (((applyGets freshCache reqs).GetStats).1.totalHits : ℚ) /
      ((((applyGets freshCache reqs).GetStats).1.totalHits : ℚ) +
       (((applyGets freshCache reqs).GetStats).1.totalMisses : ℚ)) ∧
    (∀ (cm : CacheManager) (p : LLMProvider) (d : String)
       (o : Option GenerationOptions) (now : String),
       ((cm.Get p d o now).1.isSome = true →
          ((cm.Get p d o now).2).stats.totalHits = cm.stats.totalHits + 1 ∧
          ((cm.Get p d o now).2).stats.totalMisses = cm.stats.totalMisses) ∧
       ((cm.Get p d o now).1 = none →
          ((cm.Get p d o now).2).stats.totalHits = cm.stats.totalHits ∧
          ((cm.Get p d o now).2).stats.totalMisses =
            cm.stats.totalMisses + 1)) := by
  obtain ⟨ph, pm, pr⟩ := calculateStats_preserves (applyGets freshCache reqs)
  obtain ⟨i0, i1, isum, irate⟩ :=
    applyGets_invariant reqs freshCache (by decide) (by decide)
  have hz : freshCache.stats.totalHits = 0 := rfl
  have hz' : freshCache.stats.totalMisses = 0 := rfl
  refine ⟨?_, ?_, Get_increments⟩
  · rw [GetStats_fst, ph, pm, isum, hz, hz']
    ring
  · rw [GetStats_fst, ph, pm, pr]
    exact irate hne

set_option maxRecDepth 1000000 in
/-- Witness for C6: a single miss on a fresh cache. -/
theorem C6_hit_miss_accounting_witness :
    ([(⟨ProviderOpenAI, "+x", none, "2025-01-01T00:00:00Z"⟩ : GetRequest)] ≠
      []) ∧
    (((applyGets freshCache
        [⟨ProviderOpenAI, "+x", none, "2025-01-01T00:00:00Z"⟩]).GetStats).1.totalHits +
      ((applyGets freshCache
        [⟨ProviderOpenAI, "+x", none, "2025-01-01T00:00:00Z"⟩]).GetStats).1.totalMisses =
      ((1 : Nat) : Int)) :=
  ⟨by decide,
   ((C6_hit_miss_accounting
      [⟨ProviderOpenAI, "+x", none, "2025-01-01T00:00:00Z"⟩]
      (by decide)).1)⟩

end GoCommit
